import Mathlib

/-!
Verification of `scripts/convert-bmp.py`, a batch converter of Wolf3D
palette-indexed BMP files to PNG assets.

The script is embedded shallowly:
* an RGBA pixel is a record of four natural channel values;
* a decoded image is a width, a height and a pixel store
  (a total function on coordinates, accessed only in bounds);
* the colorkey transparency loop of `convert_enemy` is a left fold of
  the loop body over the row-major coordinate list;
* the filesystem is a map from paths to optional source images, and a
  run collects the written files and the success counters;
* the directory/convert side effects of `main` are replayed as an
  explicit event trace.
-/

set_option autoImplicit false

namespace ConvertBmp

/-- One RGBA pixel as PIL exposes it after `convert("RGBA")`: four channel
values (the Python tuple `(r, g, b, a)`). -/
structure Pixel where
  r : Nat
  g : Nat
  b : Nat
  a : Nat
deriving DecidableEq, Repr

/-- The (R,G,B) triple of a pixel, its alpha ignored. -/
def Pixel.rgb (p : Pixel) : Nat × Nat × Nat := (p.r, p.g, p.b)

/-- A decoded RGBA image: `img.size` is `(width, height)` and `pixels[x, y]`
is `px x y` (the store is total; the program only reads it in bounds). -/
structure Image where
  width : Nat
  height : Nat
  px : Nat → Nat → Pixel

/-- A source image before `convert("RGBA")`: same shape, plus whether the
decoded file carried an alpha channel. -/
structure SrcImage where
  width : Nat
  height : Nat
  px : Nat → Nat → Pixel
  hasAlpha : Bool

/-- Modelled from the spec: PIL `Image.open(...).convert("RGBA")` keeps the
pixel grid and, when the source has no alpha channel, synthesizes a fully
opaque alpha of 255 for every pixel. -/
def toRGBA (s : SrcImage) : Image where
  width := s.width
  height := s.height
  px := fun x y => if s.hasAlpha then s.px x y else { s.px x y with a := 255 }

/-- Write one pixel of the store in place: `pixels[x, y] = v`. -/
def setPx (f : Nat → Nat → Pixel) (x y : Nat) (v : Pixel) : Nat → Nat → Pixel :=
  fun x' y' => if x' = x ∧ y' = y then v else f x' y'

/-- The body of the colorkey loop of `convert_enemy` at coordinate `q`:
read `(r, g, b, a) = pixels[x, y]`; if `(r, g, b) == (bg[0], bg[1], bg[2])`
then `pixels[x, y] = (r, g, b, 0)`. -/
def scanStep (bg : Pixel) (f : Nat → Nat → Pixel) (q : Nat × Nat) :
    Nat → Nat → Pixel :=
  let p := f q.1 q.2
  if (p.r, p.g, p.b) = (bg.r, bg.g, bg.b) then setPx f q.1 q.2 { p with a := 0 }
  else f

/-- The coordinates visited by `for y in range(h): for x in range(w)`,
in row-major order. -/
def rowMajor (w h : Nat) : List (Nat × Nat) :=
  (List.range h).flatMap fun y => (List.range w).map fun x => (x, y)

/-- The colorkey transparency extraction of `convert_enemy`: take
`bg = pixels[0, 0]` and run the nested loop over every coordinate. -/
def colorkey (img : Image) : Image :=
  let bg := img.px 0 0
  { img with px := (rowMajor img.width img.height).foldl (scanStep bg) img.px }

/-- What the loop body does to a single pixel value: key pixels get alpha 0,
others are untouched. -/
def keyPix (bg p : Pixel) : Pixel :=
  if (p.r, p.g, p.b) = (bg.r, bg.g, bg.b) then { p with a := 0 } else p

theorem keyPix_rgb (bg p : Pixel) : (keyPix bg p).rgb = p.rgb := by
  unfold keyPix
  split <;> rfl

theorem keyPix_keyPix {bg' bg : Pixel} (hbg : bg'.rgb = bg.rgb) (p : Pixel) :
    keyPix bg' (keyPix bg p) = keyPix bg p := by
  have h' : (bg'.r, bg'.g, bg'.b) = (bg.r, bg.g, bg.b) := hbg
  unfold keyPix
  rw [h']
  by_cases hp : (p.r, p.g, p.b) = (bg.r, bg.g, bg.b) <;> simp [hp]

theorem scanStep_apply (bg : Pixel) (f : Nat → Nat → Pixel) (q : Nat × Nat)
    (x y : Nat) :
    scanStep bg f q x y =
      if (x, y) = q then keyPix bg (f x y) else f x y := by
  rcases q with ⟨qx, qy⟩
  unfold scanStep setPx keyPix
  by_cases hq : (x, y) = (qx, qy)
  · obtain ⟨hx, hy⟩ := Prod.mk.injEq .. ▸ hq
    subst hx; subst hy
    by_cases hc : ((f x y).r, (f x y).g, (f x y).b) = (bg.r, bg.g, bg.b) <;>
      simp [hc]
  · have hxy : ¬(x = qx ∧ y = qy) := by
      intro ⟨hx, hy⟩; exact hq (by rw [hx, hy])
    by_cases hc : ((f qx qy).r, (f qx qy).g, (f qx qy).b) = (bg.r, bg.g, bg.b) <;>
      simp [hc, hxy, hq]

theorem foldl_scanStep_apply (bg : Pixel) (L : List (Nat × Nat)) :
    ∀ (f : Nat → Nat → Pixel) (x y : Nat),
      L.foldl (scanStep bg) f x y =
        if (x, y) ∈ L then keyPix bg (f x y) else f x y := by
  induction L with
  | nil => intro f x y; simp
  | cons q L ih =>
      intro f x y
      rw [List.foldl_cons, ih, scanStep_apply]
      by_cases hq : (x, y) = q
      · subst hq
        by_cases hL : (x, y) ∈ L
        · simp [hL, keyPix_keyPix rfl]
        · simp [hL]
      · by_cases hL : (x, y) ∈ L <;> simp [hq, hL]

theorem mem_rowMajor {w h x y : Nat} :
    (x, y) ∈ rowMajor w h ↔ x < w ∧ y < h := by
  unfold rowMajor
  simp only [List.mem_flatMap, List.mem_map, List.mem_range, Prod.mk.injEq]
  constructor
  · rintro ⟨y', hy', x', hx', rfl, rfl⟩
    exact ⟨hx', hy'⟩
  · rintro ⟨hx, hy⟩
    exact ⟨y, hy, x, hx, rfl, rfl⟩

/-- Pointwise description of the colorkey scan: in-bounds pixels are keyed,
out-of-bounds entries of the store are untouched. -/
theorem colorkey_px (img : Image) (x y : Nat) :
    (colorkey img).px x y =
      if x < img.width ∧ y < img.height then keyPix (img.px 0 0) (img.px x y)
      else img.px x y := by
  show (rowMajor img.width img.height).foldl (scanStep (img.px 0 0)) img.px x y = _
  rw [foldl_scanStep_apply]
  by_cases hb : x < img.width ∧ y < img.height
  · rw [if_pos (mem_rowMajor.mpr hb), if_pos hb]
  · rw [if_neg (fun hm => hb (mem_rowMajor.mp hm)), if_neg hb]

theorem colorkey_width (img : Image) : (colorkey img).width = img.width := rfl

theorem colorkey_height (img : Image) : (colorkey img).height = img.height := rfl

/-- The fixed source root `SRC = "/tmp/wolf3d-assets"`. -/
def SRC : String := "/tmp/wolf3d-assets"

/-- The destination root `DST`. The script computes it from its own absolute
location as `<script dir>/../public/assets`; the environment-dependent part
is elided, which no claim depends on. -/
def DST : String := "public/assets"

/-- The wall texture table `WALL_MAP`, in insertion order. -/
def WALL_MAP : List (String × String) :=
  [("greybrick1.bmp", "wall_0.png"),
   ("bluestone1.BMP", "wall_1.png"),
   ("wood1.BMP", "wall_2.png"),
   ("stone1.BMP", "wall_3.png"),
   ("bluestone3.BMP", "wall_4.png"),
   ("wood3.BMP", "wall_5.png"),
   ("greybrick5.bmp", "wall_6.png"),
   ("brick1.BMP", "wall_7.png"),
   ("door1.BMP", "door_0.png"),
   ("elevator1.BMP", "door_1.png")]

/-- The enemy table `ENEMIES`: name stem, output directory name, frame
letters. -/
def ENEMIES : List (String × String × List Char) :=
  [("GARD", "guard", "ABCDEFGHIJKLMN".toList),
   ("OFFI", "officer", "ABCDEFGHIJKLMNO".toList),
   ("NZSS", "ss", "ABCDEFGHIJKLMN".toList),
   ("MTNT", "mutant", "ABCDEFGHIJKLMNOP".toList)]

/-- Source path of a wall bitmap: `os.path.join(SRC, "w3d_textures_fix", f)`. -/
def wallSrcPath (f : String) : String := SRC ++ "/w3d_textures_fix/" ++ f

/-- Destination path of a wall PNG: `os.path.join(DST, "walls", f)`. -/
def wallDstPath (f : String) : String := DST ++ "/walls/" ++ f

/-- The filesystem seen by the converter: each existing source path holds a
decodable image, every other path is absent. -/
def FS : Type := String → Option SrcImage

/-- The function `convert_wall`: skip when the source path does not exist,
otherwise decode, convert to RGBA and write the destination PNG. The result
is the returned flag and the list of files written. -/
def convert_wall (fs : FS) (src_file dst_file : String) :
    Bool × List (String × Image) :=
  match fs (wallSrcPath src_file) with
  | none => (false, [])
  | some s => (true, [(wallDstPath dst_file, toRGBA s)])

/-- The function `convert_enemy`: skip when the source path does not exist,
otherwise decode, convert to RGBA, apply the colorkey loop and write. -/
def convert_enemy (fs : FS) (src_path dst_path : String) :
    Bool × List (String × Image) :=
  match fs src_path with
  | none => (false, [])
  | some s => (true, [(dst_path, colorkey (toRGBA s))])

/-- The rotation digit of `main`: `"1" if frame <= "E" else "0"`
(single-character Python string comparison is code-point comparison). -/
def rotationDigit (frame : Char) : String := if frame ≤ 'E' then "1" else "0"

/-- The f-string `f"{pre}{frame}{rotation}.bmp"` of `main`. -/
def enemySrcFile (pre : String) (frame : Char) : String :=
  pre ++ frame.toString ++ rotationDigit frame ++ ".bmp"

/-- Source path of an enemy bitmap: `os.path.join(SRC, "w3d_enemies_fix", f)`. -/
def enemySrcPath (f : String) : String := SRC ++ "/w3d_enemies_fix/" ++ f

/-- Output directory of an enemy category:
`os.path.join(DST, "enemies", dirname)`. -/
def enemyOutDir (dirname : String) : String := DST ++ "/enemies/" ++ dirname

/-- The f-string `f"{frame.lower()}.png"` of `main`. -/
def enemyDstFile (frame : Char) : String := frame.toLower.toString ++ ".png"

/-- The (source path, destination path) pairs `main` hands to
`convert_enemy`, across the four categories in table order. -/
def enemyJobs : List (String × String) :=
  ENEMIES.flatMap fun cat =>
    cat.2.2.map fun frame =>
      (enemySrcPath (enemySrcFile cat.1 frame),
       enemyOutDir cat.2.1 ++ "/" ++ enemyDstFile frame)

/-- The counting loop of `main`: start at zero, call the converter on each
item, add one per `True` return, collect every file written. -/
def runFold {α β : Type} (c : α → Bool × List β) (jobs : List α) :
    Nat × List β :=
  jobs.foldl
    (fun acc j => (if (c j).1 then acc.1 + 1 else acc.1, acc.2 ++ (c j).2))
    (0, [])

/-- The wall phase of `main`: `wall_count` and the files written. -/
def runWalls (fs : FS) : Nat × List (String × Image) :=
  runFold (fun e => convert_wall fs e.1 e.2) WALL_MAP

/-- The enemy phase of `main`: `enemy_count` and the files written. -/
def runEnemies (fs : FS) : Nat × List (String × Image) :=
  runFold (fun j => convert_enemy fs j.1 j.2) enemyJobs

theorem runFold_foldl {α β : Type} (c : α → Bool × List β) (jobs : List α) :
    ∀ (n : Nat) (os : List β),
      jobs.foldl
          (fun acc j => (if (c j).1 then acc.1 + 1 else acc.1, acc.2 ++ (c j).2))
          (n, os)
        = (n + (jobs.filter fun j => (c j).1).length,
           os ++ jobs.flatMap fun j => (c j).2) := by
  induction jobs with
  | nil => intro n os; simp
  | cons a L ih =>
      intro n os
      simp only [List.foldl_cons]
      rw [ih]
      cases hc : (c a).1 <;>
        simp [List.filter_cons, hc, List.append_assoc] <;> omega

theorem runFold_count {α β : Type} (c : α → Bool × List β) (jobs : List α) :
    (runFold c jobs).1 = (jobs.filter fun j => (c j).1).length := by
  unfold runFold
  rw [runFold_foldl]
  simp

theorem runFold_out {α β : Type} (c : α → Bool × List β) (jobs : List α) :
    (runFold c jobs).2 = jobs.flatMap fun j => (c j).2 := by
  unfold runFold
  rw [runFold_foldl]
  simp

theorem convert_wall_fst (fs : FS) (a b : String) :
    (convert_wall fs a b).1 = (fs (wallSrcPath a)).isSome := by
  cases h : fs (wallSrcPath a) <;> simp [convert_wall, h]

theorem convert_enemy_fst (fs : FS) (a b : String) :
    (convert_enemy fs a b).1 = (fs a).isSome := by
  cases h : fs a <;> simp [convert_enemy, h]

/-- A filesystem side effect of `main`, in program order: `os.makedirs`,
a call of a converter on a source path, a PNG written. -/
inductive Event where
  | mkdir : String → Event
  | tryConvert : String → Event
  | write : String → Event
deriving DecidableEq, Repr

/-- Whether an event is a conversion attempt. -/
def Event.isTry : Event → Bool
  | Event.tryConvert _ => true
  | _ => false

/-- Side effects of one `convert_wall` call: the call itself, then the
written file when the source exists. -/
def wallEvents (fs : FS) (e : String × String) : List Event :=
  Event.tryConvert (wallSrcPath e.1) ::
    match fs (wallSrcPath e.1) with
    | none => []
    | some _ => [Event.write (wallDstPath e.2)]

/-- Side effects of one enemy frame: the conversion attempt, then the
written file when the source exists. -/
def frameEvents (fs : FS) (cat : String × String × List Char) (frame : Char) :
    List Event :=
  Event.tryConvert (enemySrcPath (enemySrcFile cat.1 frame)) ::
    match fs (enemySrcPath (enemySrcFile cat.1 frame)) with
    | none => []
    | some _ => [Event.write (enemyOutDir cat.2.1 ++ "/" ++ enemyDstFile frame)]

/-- Side effects of one enemy category: `ensure_dir(out_dir)` first, then
each frame's events. -/
def catEvents (fs : FS) (cat : String × String × List Char) : List Event :=
  Event.mkdir (enemyOutDir cat.2.1) :: cat.2.2.flatMap (frameEvents fs cat)

/-- The whole side-effect trace of `main`: make the walls directory, run the
wall table, then run the four enemy categories. -/
def mainTrace (fs : FS) : List Event :=
  Event.mkdir (DST ++ "/walls") ::
    (WALL_MAP.flatMap (wallEvents fs) ++ ENEMIES.flatMap (catEvents fs))

/-- The five output directories `main` makes on every run. -/
def allOutDirs : List String :=
  (DST ++ "/walls") :: ENEMIES.map fun cat => enemyOutDir cat.2.1

/-- The ordering asserted by the claim: every one of the five directories is
created in the prefix of the trace that precedes the first conversion
attempt. -/
def dirsBeforeAnyConvert (fs : FS) : Prop :=
  ∀ d ∈ allOutDirs,
    Event.mkdir d ∈ (mainTrace fs).takeWhile fun ev => !(Event.isTry ev)

theorem flatMap_mem_decomp {α β : Type} (f : α → List β) {a : α} {L : List α}
    (h : a ∈ L) : ∃ pre post, L.flatMap f = pre ++ (f a ++ post) := by
  induction L with
  | nil => cases h
  | cons b L ih =>
      rcases List.mem_cons.mp h with rfl | h'
      · exact ⟨[], L.flatMap f, by simp⟩
      · obtain ⟨pre, post, hpp⟩ := ih h'
        exact ⟨f b ++ pre, post, by simp [hpp]⟩

/-- Bounds-checked pixel read: `some` exactly on the in-bounds coordinates. -/
def Image.getPx? (img : Image) (x y : Nat) : Option Pixel :=
  if x < img.width ∧ y < img.height then some (img.px x y) else none

/-- The colorkey loop with every pixel read routed through the
bounds-checked accessor: an out-of-bounds read aborts with `none`. -/
def checkedScan (w h : Nat) (bg : Pixel) :
    List (Nat × Nat) → (Nat → Nat → Pixel) → Option (Nat → Nat → Pixel)
  | [], f => some f
  | q :: L, f =>
      match Image.getPx? ⟨w, h, f⟩ q.1 q.2 with
      | none => none
      | some p =>
          checkedScan w h bg L
            (if (p.r, p.g, p.b) = (bg.r, bg.g, bg.b) then
              setPx f q.1 q.2 { p with a := 0 }
            else f)

/-- The colorkey extraction with the key read and every scan read
bounds-checked. -/
def colorkeyChecked (img : Image) : Option Image :=
  match img.getPx? 0 0 with
  | none => none
  | some bg =>
      (checkedScan img.width img.height bg
          (rowMajor img.width img.height) img.px).map
        fun f => { img with px := f }

theorem checkedScan_eq_foldl (w h : Nat) (bg : Pixel) (L : List (Nat × Nat))
    (hL : ∀ q ∈ L, q.1 < w ∧ q.2 < h) :
    ∀ f : Nat → Nat → Pixel,
      checkedScan w h bg L f = some (L.foldl (scanStep bg) f) := by
  induction L with
  | nil => intro f; rfl
  | cons q L ih =>
      intro f
      have hq : q.1 < w ∧ q.2 < h := hL q (List.mem_cons_self q L)
      have hrd : Image.getPx? ⟨w, h, f⟩ q.1 q.2 = some (f q.1 q.2) := by
        simp [Image.getPx?, hq.1, hq.2]
      have ihL : ∀ q' ∈ L, q'.1 < w ∧ q'.2 < h :=
        fun q' hq' => hL q' (List.mem_cons_of_mem q hq')
      rw [checkedScan, hrd]
      show checkedScan w h bg L
          (if ((f q.1 q.2).r, (f q.1 q.2).g, (f q.1 q.2).b) = (bg.r, bg.g, bg.b)
            then setPx f q.1 q.2 { f q.1 q.2 with a := 0 } else f) =
        some (List.foldl (scanStep bg) f (q :: L))
      rw [ih ihL, List.foldl_cons]
      rfl

/-- A small concrete decoded image: the key color (152,0,136) sits at (0,0),
recurs at (1,0) with a different alpha, and the bottom row is a different
color. -/
def testImg : Image where
  width := 2
  height := 2
  px := fun x y =>
    if x = 0 ∧ y = 0 then ⟨152, 0, 136, 255⟩
    else if x = 1 ∧ y = 0 then ⟨152, 0, 136, 200⟩
    else ⟨10, 20, 30, 255⟩

/-- C1. Colorkey transparency extraction: the key is the (R,G,B) of the
pixel at (0,0) with its alpha ignored; every in-bounds pixel whose (R,G,B)
equals the key keeps its R,G,B and gets alpha 0, every other pixel is left
completely unchanged, and the dimensions are unchanged. -/
theorem colorkey_extraction_correct (img : Image) (x y : Nat)
    (hx : x < img.width) (hy : y < img.height) :
    (colorkey img).width = img.width ∧ (colorkey img).height = img.height ∧
    (colorkey img).px x y =
      if (img.px x y).rgb = (img.px 0 0).rgb then { img.px x y with a := 0 }
      else img.px x y := by
  refine ⟨rfl, rfl, ?_⟩
  rw [colorkey_px img x y, if_pos ⟨hx, hy⟩]
  simp [keyPix, Pixel.rgb]

theorem colorkey_extraction_correct_witness :
    (colorkey testImg).width = testImg.width ∧
    (colorkey testImg).height = testImg.height ∧
    (colorkey testImg).px 1 0 =
      if (testImg.px 1 0).rgb = (testImg.px 0 0).rgb
      then { testImg.px 1 0 with a := 0 } else testImg.px 1 0 :=
  colorkey_extraction_correct testImg 1 0 (by decide) (by decide)

/-- C2. Colorkey idempotence: applying the extraction twice yields exactly
the same image (same dimensions, same pixel store everywhere) as applying
it once. -/
theorem colorkey_idempotent (img : Image) :
    (colorkey (colorkey img)).width = (colorkey img).width ∧
    (colorkey (colorkey img)).height = (colorkey img).height ∧
    ∀ x y : Nat, (colorkey (colorkey img)).px x y = (colorkey img).px x y := by
  refine ⟨rfl, rfl, fun x y => ?_⟩
  rw [colorkey_px (colorkey img) x y]
  simp only [colorkey_width, colorkey_height]
  by_cases hb : x < img.width ∧ y < img.height
  · rw [if_pos hb]
    have h00 : 0 < img.width ∧ 0 < img.height :=
      ⟨Nat.lt_of_le_of_lt (Nat.zero_le x) hb.1,
       Nat.lt_of_le_of_lt (Nat.zero_le y) hb.2⟩
    rw [colorkey_px img 0 0, if_pos h00, colorkey_px img x y, if_pos hb]
    exact keyPix_keyPix (keyPix_rgb _ _) _
  · rw [if_neg hb]

/-- C3. Rotation-digit rule: for every enemy category and every frame in its
frame list, the derived rotation digit is "1" exactly when the frame is one
of 'A'..'E' and "0" otherwise. -/
theorem rotation_digit_rule (cat : String × String × List Char) (frame : Char)
    (hc : cat ∈ ENEMIES) (hf : frame ∈ cat.2.2) :
    rotationDigit frame =
      if frame ∈ (['A', 'B', 'C', 'D', 'E'] : List Char) then "1" else "0" := by
  have h : ∀ cat' ∈ ENEMIES, ∀ fr ∈ cat'.2.2,
      rotationDigit fr =
        if fr ∈ (['A', 'B', 'C', 'D', 'E'] : List Char) then "1" else "0" := by
    decide
  exact h cat hc frame hf

theorem rotation_digit_rule_witness :
    rotationDigit 'F' =
      if 'F' ∈ (['A', 'B', 'C', 'D', 'E'] : List Char) then "1" else "0" :=
  rotation_digit_rule ("GARD", "guard", "ABCDEFGHIJKLMN".toList) 'F'
    (by decide) (by decide)

/-- C4. Missing-source skip semantics: a converter called on a missing
source returns `False` and writes nothing, each phase's counter counts
exactly the entries whose source exists, and each phase's output is the
concatenation of every item's output (so a missing item never stops the
batch). -/
theorem missing_source_skip (fs : FS) (s d sp dp : String)
    (hw : fs (wallSrcPath s) = none) (he : fs sp = none) :
    convert_wall fs s d = (false, []) ∧
    convert_enemy fs sp dp = (false, []) ∧
    (runWalls fs).1
      = (WALL_MAP.filter fun e => (fs (wallSrcPath e.1)).isSome).length ∧
    (runEnemies fs).1 = (enemyJobs.filter fun j => (fs j.1).isSome).length ∧
    (runWalls fs).2 = (WALL_MAP.flatMap fun e => (convert_wall fs e.1 e.2).2) ∧
    (runEnemies fs).2
      = (enemyJobs.flatMap fun j => (convert_enemy fs j.1 j.2).2) := by
  refine ⟨by simp [convert_wall, hw], by simp [convert_enemy, he], ?_, ?_, ?_, ?_⟩
  · rw [runWalls, runFold_count]
    congr 1
    apply List.filter_congr
    intro e _
    rw [convert_wall_fst]
  · rw [runEnemies, runFold_count]
    congr 1
    apply List.filter_congr
    intro j _
    rw [convert_enemy_fst]
  · rw [runWalls, runFold_out]
  · rw [runEnemies, runFold_out]

theorem missing_source_skip_witness :
    convert_wall (fun _ => none) "greybrick1.bmp" "wall_0.png" = (false, []) ∧
    convert_enemy (fun _ => none) (enemySrcPath "GARDA1.bmp") "a.png"
      = (false, []) ∧
    (runWalls fun _ => none).1
      = (WALL_MAP.filter fun e =>
          ((fun _ => (none : Option SrcImage)) (wallSrcPath e.1)).isSome).length ∧
    (runEnemies fun _ => none).1
      = (enemyJobs.filter fun j =>
          ((fun _ => (none : Option SrcImage)) j.1).isSome).length ∧
    (runWalls fun _ => none).2
      = (WALL_MAP.flatMap fun e =>
          (convert_wall (fun _ => none) e.1 e.2).2) ∧
    (runEnemies fun _ => none).2
      = (enemyJobs.flatMap fun j =>
          (convert_enemy (fun _ => none) j.1 j.2).2) :=
  missing_source_skip (fun _ => none) "greybrick1.bmp" "wall_0.png"
    (enemySrcPath "GARDA1.bmp") "a.png" rfl rfl

/-- A small concrete source image without an alpha channel. -/
def testSrc : SrcImage where
  width := 2
  height := 1
  px := fun _ _ => ⟨10, 20, 30, 7⟩
  hasAlpha := false

/-- A filesystem holding exactly one wall bitmap. -/
def testFS : FS :=
  fun p => if p = wallSrcPath "greybrick1.bmp" then some testSrc else none

/-- C5. Wall conversion output: on a present source, `convert_wall` reports
success and writes exactly the RGBA conversion at the destination path; the
written image keeps the source's dimensions, and each in-bounds pixel's
alpha is 255 when the source has no alpha channel (and the original alpha
otherwise). -/
theorem wall_conversion_output (fs : FS) (s d : String) (src : SrcImage)
    (x y : Nat) (h : fs (wallSrcPath s) = some src)
    (hx : x < src.width) (hy : y < src.height) :
    convert_wall fs s d = (true, [(wallDstPath d, toRGBA src)]) ∧
    (toRGBA src).width = src.width ∧ (toRGBA src).height = src.height ∧
    ((toRGBA src).px x y).a
      = (if src.hasAlpha then (src.px x y).a else 255) := by
  refine ⟨by simp [convert_wall, h], rfl, rfl, ?_⟩
  unfold toRGBA
  cases src.hasAlpha <;> simp

theorem wall_conversion_output_witness :
    convert_wall testFS "greybrick1.bmp" "wall_0.png"
      = (true, [(wallDstPath "wall_0.png", toRGBA testSrc)]) ∧
    (toRGBA testSrc).width = testSrc.width ∧
    (toRGBA testSrc).height = testSrc.height ∧
    ((toRGBA testSrc).px 1 0).a
      = (if testSrc.hasAlpha then (testSrc.px 1 0).a else 255) :=
  wall_conversion_output testFS "greybrick1.bmp" "wall_0.png" testSrc 1 0
    rfl (by decide) (by decide)

/-- C6. Enemy file-name derivation: for every category and frame, the
source name is the stem, the frame letter and the rotation digit followed
by ".bmp" under the fixed enemies source directory, the destination name is
the lowercase frame letter followed by ".png" in the category's output
subdirectory, and that exact pair is among the jobs `main` runs. -/
theorem enemy_filename_derivation (cat : String × String × List Char)
    (frame : Char) (hc : cat ∈ ENEMIES) (hf : frame ∈ cat.2.2) :
    enemySrcFile cat.1 frame
      = cat.1 ++ frame.toString ++ rotationDigit frame ++ ".bmp" ∧
    enemyDstFile frame = frame.toLower.toString ++ ".png" ∧
    (enemySrcPath (enemySrcFile cat.1 frame),
     enemyOutDir cat.2.1 ++ "/" ++ enemyDstFile frame) ∈ enemyJobs := by
  refine ⟨rfl, rfl, ?_⟩
  exact List.mem_flatMap.mpr ⟨cat, hc, List.mem_map.mpr ⟨frame, hf, rfl⟩⟩

theorem enemy_filename_derivation_witness :
    enemySrcFile "GARD" 'A'
      = "GARD" ++ Char.toString 'A' ++ rotationDigit 'A' ++ ".bmp" ∧
    enemyDstFile 'A' = (Char.toLower 'A').toString ++ ".png" ∧
    (enemySrcPath (enemySrcFile "GARD" 'A'),
     enemyOutDir "guard" ++ "/" ++ enemyDstFile 'A') ∈ enemyJobs :=
  enemy_filename_derivation ("GARD", "guard", "ABCDEFGHIJKLMN".toList) 'A'
    (by decide) (by decide)

/-- Modelled from the spec's words, the refinement target of C7: a pure
per-pixel map in which the key color is read from the unmodified image and
each pixel's new value depends only on that pixel's own original color. -/
def colorkeyMapSpec (img : Image) : Image where
  width := img.width
  height := img.height
  px := fun x y => keyPix (img.px 0 0) (img.px x y)

/-- C7. Colorkey order-independence: scanning the coordinates in any order
(any permutation of the row-major list) gives each in-bounds pixel the same
value as the pure per-pixel map, and the in-place row-major scan agrees
with that map on every in-bounds pixel; dimensions agree as well. -/
theorem colorkey_order_independent (img : Image) (L : List (Nat × Nat))
    (x y : Nat) (hp : L.Perm (rowMajor img.width img.height))
    (hx : x < img.width) (hy : y < img.height) :
    (colorkey img).width = (colorkeyMapSpec img).width ∧
    (colorkey img).height = (colorkeyMapSpec img).height ∧
    L.foldl (scanStep (img.px 0 0)) img.px x y = (colorkeyMapSpec img).px x y ∧
    (colorkey img).px x y = (colorkeyMapSpec img).px x y := by
  refine ⟨rfl, rfl, ?_, ?_⟩
  · rw [foldl_scanStep_apply, if_pos (hp.mem_iff.mpr (mem_rowMajor.mpr ⟨hx, hy⟩))]
    rfl
  · rw [colorkey_px img x y, if_pos ⟨hx, hy⟩]
    rfl

theorem colorkey_order_independent_witness :
    (colorkey testImg).width = (colorkeyMapSpec testImg).width ∧
    (colorkey testImg).height = (colorkeyMapSpec testImg).height ∧
    (rowMajor testImg.width testImg.height).reverse.foldl
        (scanStep (testImg.px 0 0)) testImg.px 0 1
      = (colorkeyMapSpec testImg).px 0 1 ∧
    (colorkey testImg).px 0 1 = (colorkeyMapSpec testImg).px 0 1 :=
  colorkey_order_independent testImg
    (rowMajor testImg.width testImg.height).reverse 0 1
    (by decide) (by decide) (by decide)

/-- C8. Counter bounds: each phase's counter equals the number of items
whose conversion succeeded (one increment per successful item), so the wall
count is at most 10 and the enemy count at most 59 = 14+15+14+16. -/
theorem counter_bounds (fs : FS) :
    (runWalls fs).1
      = (WALL_MAP.filter fun e => (convert_wall fs e.1 e.2).1).length ∧
    (runEnemies fs).1
      = (enemyJobs.filter fun j => (convert_enemy fs j.1 j.2).1).length ∧
    (runWalls fs).1 ≤ 10 ∧ (runEnemies fs).1 ≤ 59 := by
  have hw : (runWalls fs).1
      = (WALL_MAP.filter fun e => (convert_wall fs e.1 e.2).1).length :=
    runFold_count _ _
  have hen : (runEnemies fs).1
      = (enemyJobs.filter fun j => (convert_enemy fs j.1 j.2).1).length :=
    runFold_count _ _
  refine ⟨hw, hen, ?_, ?_⟩
  · rw [hw]
    exact le_trans (List.length_filter_le _ _) (by decide)
  · rw [hen]
    exact le_trans (List.length_filter_le _ _) (by decide)

/-- C9. Implicit safety of the colorkey scan: on an image of positive width
and height, the extraction with every pixel read bounds-checked never takes
the out-of-bounds branch and returns exactly the unchecked extraction, and
the scan visits a coordinate exactly when it is in bounds. -/
theorem colorkey_scan_in_bounds (img : Image) (x y : Nat)
    (hw : 0 < img.width) (hh : 0 < img.height) :
    colorkeyChecked img = some (colorkey img) ∧
    ((x, y) ∈ rowMajor img.width img.height
      ↔ x < img.width ∧ y < img.height) := by
  refine ⟨?_, mem_rowMajor⟩
  unfold colorkeyChecked
  have h00 : img.getPx? 0 0 = some (img.px 0 0) := by
    simp [Image.getPx?, hw, hh]
  have hb : ∀ q ∈ rowMajor img.width img.height,
      q.1 < img.width ∧ q.2 < img.height := by
    intro q hq
    rcases q with ⟨qx, qy⟩
    exact mem_rowMajor.mp hq
  rw [h00]
  show (checkedScan img.width img.height (img.px 0 0)
      (rowMajor img.width img.height) img.px).map (fun f => { img with px := f })
    = some (colorkey img)
  rw [checkedScan_eq_foldl _ _ _ _ hb]
  rfl

theorem colorkey_scan_in_bounds_witness :
    colorkeyChecked testImg = some (colorkey testImg) ∧
    ((1, 1) ∈ rowMajor testImg.width testImg.height
      ↔ 1 < testImg.width ∧ 1 < testImg.height) :=
  colorkey_scan_in_bounds testImg 1 1 (by decide) (by decide)

/-- The source paths of one enemy category's frames. -/
def catSrcPaths (cat : String × String × List Char) : List String :=
  cat.2.2.map fun frame => enemySrcPath (enemySrcFile cat.1 frame)

/-- Whether an event is a conversion attempt on one of the given paths. -/
def isTryOn (paths : List String) : Event → Bool
  | Event.tryConvert sp => paths.contains sp
  | _ => false

theorem mem_takeWhile_append {α : Type} (p : α → Bool) (t₁ t₂ : List α)
    (a : α) (h₁ : ∀ b ∈ t₁, p b = true) (ha : p a = true) :
    a ∈ (t₁ ++ a :: t₂).takeWhile p := by
  induction t₁ with
  | nil =>
      simp only [List.nil_append, List.takeWhile_cons, ha, if_true]
      exact List.mem_cons_self _ _
  | cons b t ih =>
      have hb : p b = true := h₁ b (List.mem_cons_self b t)
      have ht : ∀ c ∈ t, p c = true :=
        fun c hc => h₁ c (List.mem_cons_of_mem b hc)
      simp only [List.cons_append, List.takeWhile_cons, hb, if_true]
      exact List.mem_cons_of_mem b (ih ht)

theorem isTryOn_wallEvents (fs : FS) (e : String × String)
    (paths : List String) (h : paths.contains (wallSrcPath e.1) = false) :
    ∀ ev ∈ wallEvents fs e, isTryOn paths ev = false := by
  intro ev hev
  unfold wallEvents at hev
  rcases List.mem_cons.mp hev with rfl | hev'
  · simpa [isTryOn] using h
  · cases hfs : fs (wallSrcPath e.1)
    · simp [hfs] at hev'
    · simp [hfs] at hev'
      subst hev'
      rfl

theorem isTryOn_catEvents (fs : FS) (cat' : String × String × List Char)
    (paths : List String)
    (h : ∀ sp ∈ catSrcPaths cat', paths.contains sp = false) :
    ∀ ev ∈ catEvents fs cat', isTryOn paths ev = false := by
  intro ev hev
  unfold catEvents at hev
  rcases List.mem_cons.mp hev with rfl | hev'
  · rfl
  · obtain ⟨frame, hframe, hev2⟩ := List.mem_flatMap.mp hev'
    unfold frameEvents at hev2
    rcases List.mem_cons.mp hev2 with rfl | hev3
    · have hmem : enemySrcPath (enemySrcFile cat'.1 frame) ∈ catSrcPaths cat' :=
        List.mem_map.mpr ⟨frame, hframe, rfl⟩
      simpa [isTryOn] using h _ hmem
    · cases hfs : fs (enemySrcPath (enemySrcFile cat'.1 frame))
      · simp [hfs] at hev3
      · simp [hfs] at hev3
        subst hev3
        rfl

theorem trace_decomp (fs : FS) (L₁ L₂ : List (String × String × List Char))
    (cat : String × String × List Char) (hE : ENEMIES = L₁ ++ cat :: L₂) :
    mainTrace fs =
      (Event.mkdir (DST ++ "/walls") ::
        (WALL_MAP.flatMap (wallEvents fs) ++ L₁.flatMap (catEvents fs)))
      ++ Event.mkdir (enemyOutDir cat.2.1) ::
        (cat.2.2.flatMap (frameEvents fs cat) ++ L₂.flatMap (catEvents fs)) := by
  unfold mainTrace
  rw [hE, List.flatMap_append, List.flatMap_cons]
  show Event.mkdir (DST ++ "/walls") ::
      (WALL_MAP.flatMap (wallEvents fs) ++
        (L₁.flatMap (catEvents fs) ++
          ((Event.mkdir (enemyOutDir cat.2.1) ::
            cat.2.2.flatMap (frameEvents fs cat)) ++ L₂.flatMap (catEvents fs))))
    = _
  simp [List.append_assoc]

theorem mkdir_before_cat (fs : FS)
    (L₁ L₂ : List (String × String × List Char))
    (cat : String × String × List Char) (hE : ENEMIES = L₁ ++ cat :: L₂)
    (hwalls : ∀ e ∈ WALL_MAP,
      (catSrcPaths cat).contains (wallSrcPath e.1) = false)
    (hprev : ∀ cat' ∈ L₁, ∀ sp ∈ catSrcPaths cat',
      (catSrcPaths cat).contains sp = false) :
    Event.mkdir (enemyOutDir cat.2.1)
      ∈ (mainTrace fs).takeWhile fun ev => !(isTryOn (catSrcPaths cat) ev) := by
  rw [trace_decomp fs L₁ L₂ cat hE]
  apply mem_takeWhile_append
  · intro b hb
    rcases List.mem_cons.mp hb with rfl | hb'
    · rfl
    · rcases List.mem_append.mp hb' with hbw | hbc
      · obtain ⟨e, he, hbe⟩ := List.mem_flatMap.mp hbw
        have hf := isTryOn_wallEvents fs e _ (hwalls e he) b hbe
        simp [hf]
      · obtain ⟨cat', hcat', hbc'⟩ := List.mem_flatMap.mp hbc
        have hf := isTryOn_catEvents fs cat' _ (hprev cat' hcat') b hbc'
        simp [hf]
  · rfl

/-- C10 counterexample: on the run where every source file is missing, it
is not the case that all five output directories are created before the
first conversion attempt — the enemy directories are created after the
wall (and earlier categories') conversion attempts. -/
theorem dirs_before_any_convert_refuted :
    ¬ dirsBeforeAnyConvert (fun _ => none) := by
  unfold dirsBeforeAnyConvert
  decide

/-- C10 amended: every run — whatever the filesystem holds, including the
one where every source is missing — creates the "walls" directory and each
enemy category's output directory; the walls directory is the very first
side effect, and each category's directory is created before any of that
category's own conversion attempts (but not before earlier items'
attempts). -/
theorem dir_creation_amended (fs : FS) (cat : String × String × List Char)
    (hc : cat ∈ ENEMIES) :
    (mainTrace fs).head? = some (Event.mkdir (DST ++ "/walls")) ∧
    Event.mkdir (DST ++ "/walls") ∈ mainTrace fs ∧
    Event.mkdir (enemyOutDir cat.2.1) ∈ mainTrace fs ∧
    Event.mkdir (enemyOutDir cat.2.1)
      ∈ (mainTrace fs).takeWhile fun ev => !(isTryOn (catSrcPaths cat) ev) := by
  have key : Event.mkdir (enemyOutDir cat.2.1)
      ∈ (mainTrace fs).takeWhile fun ev => !(isTryOn (catSrcPaths cat) ev) := by
    fin_cases hc
    · exact mkdir_before_cat fs [] _ _ rfl (by decide) (by decide)
    · exact mkdir_before_cat fs
        [("GARD", "guard", "ABCDEFGHIJKLMN".toList)] _ _ rfl
        (by decide) (by decide)
    · exact mkdir_before_cat fs
        [("GARD", "guard", "ABCDEFGHIJKLMN".toList),
         ("OFFI", "officer", "ABCDEFGHIJKLMNO".toList)] _ _ rfl
        (by decide) (by decide)
    · exact mkdir_before_cat fs
        [("GARD", "guard", "ABCDEFGHIJKLMN".toList),
         ("OFFI", "officer", "ABCDEFGHIJKLMNO".toList),
         ("NZSS", "ss", "ABCDEFGHIJKLMN".toList)] _ _ rfl
        (by decide) (by decide)
  refine ⟨rfl, ?_, List.Sublist.mem key (List.takeWhile_sublist _), key⟩
  unfold mainTrace
  exact List.mem_cons_self _ _

theorem dir_creation_amended_witness :
    (mainTrace fun _ => none).head?
      = some (Event.mkdir (DST ++ "/walls")) ∧
    Event.mkdir (DST ++ "/walls") ∈ mainTrace (fun _ => none) ∧
    Event.mkdir (enemyOutDir ("OFFI", "officer",
      "ABCDEFGHIJKLMNO".toList).2.1) ∈ mainTrace (fun _ => none) ∧
    Event.mkdir (enemyOutDir ("OFFI", "officer",
      "ABCDEFGHIJKLMNO".toList).2.1)
      ∈ (mainTrace fun _ => none).takeWhile fun ev =>
          !(isTryOn (catSrcPaths ("OFFI", "officer",
            "ABCDEFGHIJKLMNO".toList)) ev) :=
  dir_creation_amended (fun _ => none)
    ("OFFI", "officer", "ABCDEFGHIJKLMNO".toList) (by decide)

end ConvertBmp
